import Mathlib

/-!
Verification of the cross-validation driver of the Surprise repository
(`main.py`), together with spec-modelled stubs for the collaborators that
`main.py` imports (`dataset.TrainingData`, `stats.computeStats`, the
prediction algorithms) whose sources are not part of the checked tree.

The embedding is shallow: Python lists become `List`, the generator
`kFolds` becomes a function returning the list of yielded pairs, in-place
mutation of the argument (`rd.shuffle(seq)`) is made explicit by returning
the permuted list alongside the folds, dictionaries become association
lists with `Option`-valued lookup (a Python `KeyError` is `none`), and the
`try/except KeyError: continue` in the test loop becomes a `match` on the
two lookups.  Ratings are modelled as exact rationals.
-/

namespace Surprise

/-- Modelled from the spec: the process-wide RNG (`rd.seed` / `rd.shuffle`
are declared out of scope; the spec only requires the shuffle to be a
permutation that is deterministic given the seed).  A 64-bit linear
congruential step generating the pseudo-random stream that drives the
shuffle. -/
def lcg (s : Nat) : Nat :=
  (6364136223846793005 * s + 1442695040888963407) % (2 ^ 64)

/-- Modelled from the spec: `rd.shuffle` — Fisher-Yates selection driven by
the seed stream.  `fuel` is the length of the remaining list. -/
def shuffleGo {α : Type} : Nat → Nat → List α → List α
  | 0, _, _ => []
  | _ + 1, _, [] => []
  | fuel + 1, s, a :: t =>
    let l := a :: t
    let i := s % l.length
    l.getD i a :: shuffleGo fuel (lcg s) (l.take i ++ l.drop (i + 1))

/-- Modelled from the spec: `rd.shuffle(seq)` after `rd.seed(seed)`:
a deterministic permutation of `seq` selected by `seed`. -/
def shuffle {α : Type} (seed : Nat) (l : List α) : List α :=
  shuffleGo l.length seed l

/-- The loop body of `kFolds` (main.py lines 137-143): starting at offset
`stop`, yield `fuel` more pairs `(seq[:start] + seq[stop:], seq[start:stop])`
where each test range has `len(seq) // k` elements plus one extra while
`fold < len(seq) % k`. -/
def kFoldsGo {α : Type} (seq : List α) (k : Nat) :
    Nat → Nat → Nat → List (List α × List α)
  | 0, _, _ => []
  | fuel + 1, fold, stop =>
    let start := stop
    let stop2 := stop + seq.length / k + (if fold < seq.length % k then 1 else 0)
    (seq.take start ++ seq.drop stop2, (seq.drop start).take (stop2 - start)) ::
      kFoldsGo seq k fuel (fold + 1) stop2

/-- `kFolds(seq, k)` from main.py lines 134-143, with the in-place shuffle
made explicit: the first component is the caller's list after
`rd.shuffle(seq)` mutated it, the second is the list of yielded
`(trainSet, testSet)` pairs.  `k` is a Python `int`; `range(k)` is empty
for `k ≤ 0`, so no fold is yielded then (and `len(seq) // k` is never
evaluated). -/
def kFoldsFull {α : Type} (seed : Nat) (seq : List α) (k : Int) :
    List α × List (List α × List α) :=
  (shuffle seed seq,
   if k ≤ 0 then [] else kFoldsGo (shuffle seed seq) k.toNat k.toNat 0 0)

/-- The folds yielded by `kFolds(seq, k)` after seeding the RNG with `seed`. -/
def kFolds {α : Type} (seed : Nat) (seq : List α) (k : Int) :
    List (List α × List α) :=
  (kFoldsFull seed seq k).2

/-- Size of fold number `i` in the partition of `n` elements into `k` folds. -/
def foldSize (n k i : Nat) : Nat :=
  n / k + (if i < n % k then 1 else 0)

/-- Offset at which fold number `i`'s test range begins. -/
def foldStart (n k i : Nat) : Nat :=
  i * (n / k) + min i (n % k)

/-- The pair yielded for fold number `i`: train = everything outside the
test range, test = the contiguous range `[foldStart i, foldStart (i+1))`. -/
def mkFold {α : Type} (seq : List α) (k i : Nat) : List α × List α :=
  (seq.take (foldStart seq.length k i) ++ seq.drop (foldStart seq.length k (i + 1)),
   (seq.drop (foldStart seq.length k i)).take
     (foldStart seq.length k (i + 1) - foldStart seq.length k i))

theorem foldStart_succ (n k i : Nat) :
    foldStart n k (i + 1) = foldStart n k i + foldSize n k i := by
  unfold foldStart foldSize
  rw [Nat.succ_mul]
  split <;> omega

theorem foldStart_zero (n k : Nat) : foldStart n k 0 = 0 := by
  simp [foldStart]

theorem foldStart_mono (n k : Nat) {i j : Nat} (h : i ≤ j) :
    foldStart n k i ≤ foldStart n k j := by
  unfold foldStart
  have h1 : i * (n / k) ≤ j * (n / k) := Nat.mul_le_mul_right _ h
  omega

theorem foldStart_last (n k : Nat) (hk : 0 < k) : foldStart n k k = n := by
  unfold foldStart
  rw [Nat.min_eq_right (Nat.le_of_lt (Nat.mod_lt n hk))]
  have := Nat.div_add_mod n k
  omega

theorem foldStart_le (n k : Nat) (hk : 0 < k) {i : Nat} (h : i ≤ k) :
    foldStart n k i ≤ n :=
  le_of_le_of_eq (foldStart_mono n k h) (foldStart_last n k hk)

/-- Closed form of the `kFolds` loop: starting at fold number `fold` with
the matching offset, it yields exactly the folds `fold, fold+1, …`. -/
theorem kFoldsGo_eq_map {α : Type} (seq : List α) (k : Nat) :
    ∀ (fuel fold : Nat),
      kFoldsGo seq k fuel fold (foldStart seq.length k fold) =
        (List.range fuel).map (fun j => mkFold seq k (fold + j)) := by
  intro fuel
  induction fuel with
  | zero => intro fold; rfl
  | succ m ih =>
    intro fold
    rw [List.range_succ_eq_map, List.map_cons, List.map_map]
    show (seq.take (foldStart seq.length k fold) ++
        seq.drop (foldStart seq.length k fold + seq.length / k +
          (if fold < seq.length % k then 1 else 0)),
      (seq.drop (foldStart seq.length k fold)).take
        (foldStart seq.length k fold + seq.length / k +
          (if fold < seq.length % k then 1 else 0) -
            foldStart seq.length k fold)) ::
      kFoldsGo seq k m (fold + 1)
        (foldStart seq.length k fold + seq.length / k +
          (if fold < seq.length % k then 1 else 0)) = _
    have hs : foldStart seq.length k fold + seq.length / k +
        (if fold < seq.length % k then 1 else 0) =
        foldStart seq.length k (fold + 1) := by
      rw [foldStart_succ]; unfold foldSize; omega
    rw [hs, ih (fold + 1)]
    refine congrArg₂ _ ?_ ?_
    · simp [mkFold]
    · apply List.map_congr_left
      intro j _
      simp only [Function.comp]
      congr 1
      omega

/-- Extracting the element at position `i` is a permutation. -/
theorem perm_extract {α : Type} (l : List α) (i : Nat) (h : i < l.length) :
    l.Perm (l[i] :: (l.take i ++ l.drop (i + 1))) := by
  conv_lhs => rw [← List.take_append_drop i l]
  rw [List.drop_eq_getElem_cons h]
  exact List.perm_middle

theorem shuffleGo_perm {α : Type} :
    ∀ (fuel s : Nat) (l : List α), l.length ≤ fuel →
      (shuffleGo fuel s l).Perm l := by
  intro fuel
  induction fuel with
  | zero =>
    intro s l h
    have : l = [] := List.length_eq_zero.mp (Nat.le_zero.mp h)
    subst this
    exact List.Perm.refl _
  | succ m ih =>
    intro s l h
    match l with
    | [] => exact List.Perm.refl _
    | a :: t =>
      have hlen : 0 < (a :: t).length := by simp
      have hi : s % (a :: t).length < (a :: t).length := Nat.mod_lt _ hlen
      have hgd : (a :: t).getD (s % (a :: t).length) a =
          (a :: t)[s % (a :: t).length] := by
        rw [List.getD_eq_getElem?_getD, List.getElem?_eq_getElem hi]
        rfl
      have hrest : ((a :: t).take (s % (a :: t).length) ++
          (a :: t).drop (s % (a :: t).length + 1)).length ≤ m := by
        rw [List.length_append, List.length_take, List.length_drop]
        simp only [List.length_cons] at h hi ⊢
        omega
      have hstep : shuffleGo (m + 1) s (a :: t) =
          (a :: t).getD (s % (a :: t).length) a ::
            shuffleGo m (lcg s)
              ((a :: t).take (s % (a :: t).length) ++
                (a :: t).drop (s % (a :: t).length + 1)) := rfl
      rw [hstep, hgd]
      exact ((ih _ _ hrest).cons _).trans (perm_extract _ _ hi).symm

/-- The modelled shuffle permutes its input. -/
theorem shuffle_perm {α : Type} (seed : Nat) (l : List α) :
    (shuffle seed l).Perm l :=
  shuffleGo_perm l.length seed l (Nat.le_refl _)

theorem shuffle_length {α : Type} (seed : Nat) (l : List α) :
    (shuffle seed l).length = l.length :=
  (shuffle_perm seed l).length_eq

theorem take_add_split {α : Type} :
    ∀ (l : List α) (m n : Nat), l.take (m + n) = l.take m ++ (l.drop m).take n := by
  intro l
  induction l with
  | nil => intro m n; simp
  | cons a t ih =>
    intro m n
    cases m with
    | zero => simp
    | succ m2 =>
      rw [Nat.succ_add, List.take_succ_cons, List.take_succ_cons,
        List.drop_succ_cons, ih]
      rfl

/-- `kFolds` with a positive fold count is the list of the `k` closed-form
folds of the shuffled list. -/
theorem kFolds_eq_map {α : Type} (seed : Nat) (seq : List α) (k : Int)
    (hk : 0 < k) :
    kFolds seed seq k =
      (List.range k.toNat).map (fun i => mkFold (shuffle seed seq) k.toNat i) := by
  unfold kFolds kFoldsFull
  rw [if_neg (by omega)]
  have h0 := kFoldsGo_eq_map (shuffle seed seq) k.toNat k.toNat 0
  rw [foldStart_zero] at h0
  simpa using h0

/-- Laying the first `K` test ranges end to end gives the first
`foldStart K` elements of the list. -/
theorem flatten_test_ranges {α : Type} (seq : List α) (k : Nat) :
    ∀ K : Nat, ((List.range K).map (fun i => (mkFold seq k i).2)).flatten =
      seq.take (foldStart seq.length k K) := by
  intro K
  induction K with
  | zero => simp [foldStart_zero]
  | succ m ih =>
    rw [List.range_succ, List.map_append, List.flatten_append, ih]
    simp only [List.map_cons, List.map_nil, List.flatten_cons, List.flatten_nil,
      List.append_nil, mkFold]
    rw [← take_add_split]
    congr 1
    have h1 := foldStart_succ seq.length k m
    have h2 := foldStart_mono seq.length k (Nat.le_succ m)
    omega

theorem mkFold_test_length {α : Type} (seq : List α) (k i : Nat)
    (hk : 0 < k) (hik : i < k) :
    (mkFold seq k i).2.length = foldSize seq.length k i := by
  simp only [mkFold, List.length_take, List.length_drop]
  have h1 := foldStart_succ seq.length k i
  have h2 := foldStart_le seq.length k hk (show i + 1 ≤ k from hik)
  have h3 := foldStart_mono seq.length k (Nat.le_succ i)
  omega

/-- Each fold's train and test parts together are a permutation of the
whole (shuffled) list. -/
theorem mkFold_append_perm {α : Type} (seq : List α) (k i : Nat) :
    ((mkFold seq k i).1 ++ (mkFold seq k i).2).Perm seq := by
  simp only [mkFold]
  have hse : foldStart seq.length k i ≤ foldStart seq.length k (i + 1) :=
    foldStart_mono _ _ (Nat.le_succ i)
  have key : (seq.drop (foldStart seq.length k i)).take
        (foldStart seq.length k (i + 1) - foldStart seq.length k i) ++
      seq.drop (foldStart seq.length k (i + 1)) =
      seq.drop (foldStart seq.length k i) := by
    have hd : seq.drop (foldStart seq.length k (i + 1)) =
        (seq.drop (foldStart seq.length k i)).drop
          (foldStart seq.length k (i + 1) - foldStart seq.length k i) := by
      rw [List.drop_drop]
      congr 1
      omega
    rw [hd, List.take_append_drop]
  have hfin : seq.take (foldStart seq.length k i) ++
      ((seq.drop (foldStart seq.length k i)).take
        (foldStart seq.length k (i + 1) - foldStart seq.length k i) ++
        seq.drop (foldStart seq.length k (i + 1))) = seq := by
    rw [key, List.take_append_drop]
  have hcomm : (seq.drop (foldStart seq.length k (i + 1)) ++
      (seq.drop (foldStart seq.length k i)).take
        (foldStart seq.length k (i + 1) - foldStart seq.length k i)).Perm
      ((seq.drop (foldStart seq.length k i)).take
        (foldStart seq.length k (i + 1) - foldStart seq.length k i) ++
        seq.drop (foldStart seq.length k (i + 1))) :=
    List.perm_append_comm
  have hall := List.Perm.append_left (seq.take (foldStart seq.length k i)) hcomm
  rw [List.append_assoc]
  rw [hfin] at hall
  exact hall

/-- Every pair yielded by `kFolds` is one of the closed-form folds. -/
theorem kFolds_mem {α : Type} (seed : Nat) (seq : List α) (k : Int)
    (hk : 0 < k) {p : List α × List α} (hp : p ∈ kFolds seed seq k) :
    ∃ i, i < k.toNat ∧ p = mkFold (shuffle seed seq) k.toNat i := by
  rw [kFolds_eq_map seed seq k hk] at hp
  simp only [List.mem_map, List.mem_range] at hp
  obtain ⟨i, hi, hpe⟩ := hp
  exact ⟨i, hi, hpe.symm⟩

/-- Raw rating tuple `(rawUser, rawItem, rating, timestamp)` as produced by
the dataset reader (spec section 3). -/
structure RawRating where
  user : Nat
  item : Nat
  rating : ℚ
  stamp : Nat
deriving DecidableEq

/-- The identity of a test query: everything the evaluation loop reads from
a raw test rating (`u0, i0, r0` in main.py line 164; the timestamp is bound
to `_` and dropped). -/
def queryOf (x : RawRating) : Nat × Nat × ℚ :=
  (x.user, x.item, x.rating)

/-- Modelled from the spec: the Id Index of `dataset.TrainingData`
(dataset.py is not in the checked tree) — raw ids mapped to dense
zero-based inner ids in first-seen order; looking up an unseen raw id
fails (Python `KeyError`, here `none`). -/
def assignIds (raws : List Nat) : List (Nat × Nat) :=
  raws.foldl
    (fun acc r => if (acc.lookup r).isSome then acc else acc ++ [(r, acc.length)])
    []

/-- Modelled from the spec: `dataset.TrainingData` (dataset.py is not in
the checked tree) — the id indexes for users and items plus the per-user /
per-item adjacency of the training ratings, their count and global mean. -/
structure TrainingData where
  rawToInnerIdUsers : List (Nat × Nat)
  rawToInnerIdItems : List (Nat × Nat)
  ratingsByUser : Nat → List (Nat × ℚ)
  ratingsByItem : Nat → List (Nat × ℚ)
  nRatings : Nat
  globalMean : ℚ

/-- Training ratings translated to inner ids. -/
def innerTriples (users items : List (Nat × Nat)) (raws : List RawRating) :
    List (Nat × Nat × ℚ) :=
  raws.filterMap (fun x =>
    match users.lookup x.user, items.lookup x.item with
    | some u, some i => some (u, i, x.rating)
    | _, _ => none)

/-- Modelled from the spec: `TrainingData(readerTrain)` — built solely from
the training split's raw ratings. -/
def buildTrainingData (raws : List RawRating) : TrainingData :=
  let users := assignIds (raws.map (fun x => x.user))
  let items := assignIds (raws.map (fun x => x.item))
  let triples := innerTriples users items raws
  { rawToInnerIdUsers := users
    rawToInnerIdItems := items
    ratingsByUser := fun u =>
      triples.filterMap (fun t => if t.1 = u then some t.2 else none)
    ratingsByItem := fun i =>
      triples.filterMap (fun t => if t.2.1 = i then some (t.1, t.2.2) else none)
    nRatings := raws.length
    globalMean := (raws.map (fun x => x.rating)).sum / (raws.length : ℚ) }

/-- Modelled from the spec: a Prediction Record `(user, item, actual,
predicted)` appended by `algo.predict` (prediction_algorithms are not in
the checked tree); ids are the inner ids passed at main.py line 177. -/
structure PredRecord where
  user : Nat
  item : Nat
  actual : ℚ
  est : ℚ
deriving DecidableEq

/-- The per-fold evaluation loop of `getRmse` (main.py lines 164-177): for
each raw test rating, translate both raw ids; a failed lookup (Python
`KeyError`) skips the query, otherwise `algo.predict` appends one
Prediction Record.  `est` is the prediction function of the algorithm
instance built for this fold. -/
def testLoop (td : TrainingData) (est : Nat → Nat → ℚ) :
    List RawRating → List PredRecord
  | [] => []
  | x :: rest =>
    match td.rawToInnerIdUsers.lookup x.user, td.rawToInnerIdItems.lookup x.item with
    | some u0, some i0 =>
      { user := u0, item := i0, actual := x.rating, est := est u0 i0 } ::
        testLoop td est rest
    | some _, none => testLoop td est rest
    | none, _ => testLoop td est rest

/-- Modelled from the spec: `stats.computeStats` (stats.py is not in the
checked tree).  The spec defines RMSE as `sqrt(mean((actual-predicted)^2))`
over all Prediction Records; the square root of a rational being irrational
in general, the statistic is represented by the exact mean squared error, a
strictly monotone transform of the RMSE.  The claims settled below concern
how the driver collects and averages the per-fold statistic, not its
numeric value. -/
def computeStats (preds : List PredRecord) : ℚ :=
  (preds.map (fun p => (p.actual - p.est) ^ 2)).sum / (preds.length : ℚ)

/-- The observable state of the algorithm instance when the reporting layer
(`algo.dumpInfos()` and `stats.computeStats(algo.preds)`, main.py lines
187-193) reads it: the `infos` mapping and the accumulated `preds`.  The
two timing entries are set from `time.process_time()` differences, an
environmental quantity modelled as 0; only their presence is specified. -/
structure AlgoState where
  infos : List (String × ℚ)
  preds : List PredRecord
deriving DecidableEq

/-- `getRmse(trainRawRatings, testRawRatings)` (main.py lines 147-193),
parametrised by the prediction function `algoEst` of the selected
algorithm (an algorithm instance is a function of the fold's TrainingData).
Returns the algorithm state visible to the reporting layer and the value
of `computeStats` on the fold's accumulated Prediction Records. -/
def getRmse (algoEst : TrainingData → Nat → Nat → ℚ)
    (trainRawRatings testRawRatings : List RawRating) : AlgoState × ℚ :=
  ({ infos := [("trainingTime", 0), ("testingTime", 0)],
     preds := testLoop (buildTrainingData trainRawRatings)
       (algoEst (buildTrainingData trainRawRatings)) testRawRatings },
   computeStats (testLoop (buildTrainingData trainRawRatings)
     (algoEst (buildTrainingData trainRawRatings)) testRawRatings))

/-- The cross-validation branch of `main` (main.py lines 202-212): one
`getRmse` value appended per fold yielded by `kFolds`, then the mean of the
collected values is reported. -/
def runCV (algoEst : TrainingData → Nat → Nat → ℚ) (seed : Nat)
    (ratings : List RawRating) (cv : Int) : List ℚ × ℚ :=
  ((kFolds seed ratings cv).map (fun f => (getRmse algoEst f.1 f.2).2),
   ((kFolds seed ratings cv).map (fun f => (getRmse algoEst f.1 f.2).2)).sum /
     (((kFolds seed ratings cv).map
       (fun f => (getRmse algoEst f.1 f.2).2)).length : ℚ))

/-- The fold loop of `main` under Python exception semantics: the body is
run once per fold in order and has no exception handler, so the first
failure aborts the loop and propagates to the caller (there is no retry). -/
def runFoldsE {ε : Type} (eval : List RawRating × List RawRating → Except ε ℚ) :
    List (List RawRating × List RawRating) → Except ε (List ℚ)
  | [] => Except.ok []
  | f :: fs =>
    match eval f with
    | Except.error e => Except.error e
    | Except.ok v => (runFoldsE eval fs).map (fun vs => v :: vs)

/-- The command-line configuration consumed by `main` (main.py lines
44-127). -/
structure ArgsIn where
  algo : String
  sim : String
  method : String
  dataset : String
  k : Int
  cv : Int
deriving DecidableEq

/-- The keys of `algoChoices` (main.py lines 32-43). -/
def algoChoices : List String :=
  ["Random", "BaselineOnly", "KNNBasic", "KNNBaseline", "KNNWithMeans",
   "Parall", "Pattern", "CloneBruteforce", "CloneMeanDiff", "CloneKNNMeanDiff"]

/-- `simChoices` (main.py line 52). -/
def simChoices : List String := ["cos", "pearson", "MSD", "MSDClone"]

/-- `methodChoices` (main.py line 60). -/
def methodChoices : List String := ["als", "sgd"]

/-- `datasetChoices` (main.py line 89). -/
def datasetChoices : List String := ["ml-100k", "ml-1m", "BX", "jester"]

/-- `parser.parse_args()` (main.py line 127) restricted to the options the
claims mention: argparse rejects a value outside the declared `choices` of
`-algo`, `-sim`, `-method` and `-dataset` (a fatal error before anything
else runs), while `-k` and `-cv` are declared with `type=int` and no
further constraint, so any integers are accepted. -/
def parseArgs (a : ArgsIn) : Option ArgsIn :=
  if a.algo ∈ algoChoices ∧ a.sim ∈ simChoices ∧ a.method ∈ methodChoices ∧
      a.dataset ∈ datasetChoices then
    some a
  else
    none

/-- `main` in cross-validation mode: parse the arguments, then (only when
parsing succeeded) run cross-validation with the parsed fold count. -/
def runMain (algoEst : TrainingData → Nat → Nat → ℚ) (seed : Nat)
    (ratings : List RawRating) (a : ArgsIn) : Option (List ℚ × ℚ) :=
  (parseArgs a).map (fun b => runCV algoEst seed ratings b.cv)

theorem kFolds_empty_of_nonpos {α : Type} (seed : Nat) (seq : List α)
    (k : Int) (hk : k ≤ 0) : kFolds seed seq k = [] := by
  simp [kFolds, kFoldsFull, if_pos hk]

theorem kFolds_snd_getElem {α : Type} (seed : Nat) (seq : List α) (k : Int)
    (hk : 0 < k) (i : Nat) (hik : i < k.toNat) :
    ((kFolds seed seq k).map Prod.snd)[i]? =
      some ((mkFold (shuffle seed seq) k.toNat i).2) := by
  rw [kFolds_eq_map seed seq k hk, List.map_map, List.getElem?_map,
    List.getElem?_range hik]
  rfl

theorem kFolds_test_len {α : Type} (seed : Nat) (seq : List α) (k : Int)
    (hk : 0 < k) (i : Nat) (hik : i < k.toNat) :
    (((kFolds seed seq k).map Prod.snd)[i]?).map List.length =
      some (seq.length / k.toNat +
        if i < seq.length % k.toNat then 1 else 0) := by
  rw [kFolds_snd_getElem seed seq k hk i hik]
  have hk2 : 0 < k.toNat := by omega
  simp only [Option.map_some', mkFold_test_length (shuffle seed seq) k.toNat i hk2 hik,
    foldSize, shuffle_length]

theorem testLoop_congr (td : TrainingData) (est : Nat → Nat → ℚ) :
    ∀ (te te2 : List RawRating), te.map queryOf = te2.map queryOf →
      testLoop td est te = testLoop td est te2 := by
  intro te
  induction te with
  | nil =>
    intro te2 h
    cases te2 with
    | nil => rfl
    | cons y ys => simp at h
  | cons x xs ih =>
    intro te2 h
    cases te2 with
    | nil => simp at h
    | cons y ys =>
      simp only [List.map_cons, List.cons.injEq] at h
      obtain ⟨hq, hrest⟩ := h
      have hu : x.user = y.user := congrArg (fun t => t.1) hq
      have hitem : x.item = y.item := congrArg (fun t => t.2.1) hq
      have hr : x.rating = y.rating := congrArg (fun t => t.2.2) hq
      simp only [testLoop]
      rw [hu, hitem, hr, ih ys hrest]

theorem runFoldsE_error {ε : Type}
    (eval : List RawRating × List RawRating → Except ε ℚ)
    (f : List RawRating × List RawRating) (e : ε)
    (hf : eval f = Except.error e) :
    ∀ (pre post : List (List RawRating × List RawRating)),
      (∀ x ∈ pre, ∃ v, eval x = Except.ok v) →
      runFoldsE eval (pre ++ f :: post) = Except.error e := by
  intro pre
  induction pre with
  | nil =>
    intro post _
    simp [runFoldsE, hf]
  | cons a as ih =>
    intro post hpre
    obtain ⟨v, hv⟩ := hpre a (List.mem_cons_self a as)
    have htail := ih post (fun x hx => hpre x (List.mem_cons_of_mem a hx))
    simp only [List.cons_append, runFoldsE, hv, List.append_eq, htail]
    rfl

/-- A small concrete rating list used by the witnesses. -/
def sampleRatings : List RawRating :=
  [⟨1, 10, 4, 0⟩, ⟨2, 10, 3, 1⟩, ⟨1, 11, 5, 2⟩]

/-- C1: for every rating list, seed and positive `k` with `k ≤` the list's
length, `kFolds(ratings, k)` yields exactly `k` folds obtained by shuffling
the list once and taking `k` contiguous test ranges: laid end to end the
test sets are exactly the once-shuffled list (so they are pairwise disjoint
ranges), their multiset union is the input rating multiset, the test set of
fold `i` has `len/k` elements plus one extra exactly when `i < len % k` —
hence the first `len % k` test sets have exactly one element more than the
remaining ones, and all test-set sizes differ by at most 1. -/
theorem kFolds_partition (ratings : List RawRating) (seed : Nat) (k : Int)
    (hk : 0 < k) (hlen : k.toNat ≤ ratings.length) :
    (kFolds seed ratings k).length = k.toNat ∧
    ((kFolds seed ratings k).map Prod.snd).flatten = shuffle seed ratings ∧
    (((kFolds seed ratings k).map Prod.snd).flatten).Perm ratings ∧
    (∀ i, i < k.toNat →
      (((kFolds seed ratings k).map Prod.snd)[i]?).map List.length =
        some (ratings.length / k.toNat +
          if i < ratings.length % k.toNat then 1 else 0)) ∧
    (∀ i j si sj,
      (((kFolds seed ratings k).map Prod.snd)[i]?).map List.length = some si →
      (((kFolds seed ratings k).map Prod.snd)[j]?).map List.length = some sj →
      (i < ratings.length % k.toNat → ratings.length % k.toNat ≤ j →
        si = sj + 1) ∧ si ≤ sj + 1) := by
  have hk2 : 0 < k.toNat := by omega
  have hlen0 : (kFolds seed ratings k).length = k.toNat := by
    rw [kFolds_eq_map seed ratings k hk]
    simp
  have hflat : ((kFolds seed ratings k).map Prod.snd).flatten =
      shuffle seed ratings := by
    rw [kFolds_eq_map seed ratings k hk, List.map_map]
    have hr := flatten_test_ranges (shuffle seed ratings) k.toNat k.toNat
    rw [show (Prod.snd ∘ fun i => mkFold (shuffle seed ratings) k.toNat i) =
      (fun i => (mkFold (shuffle seed ratings) k.toNat i).2) from rfl]
    rw [hr, foldStart_last _ _ hk2, List.take_length]
  refine ⟨hlen0, hflat, ?_, ?_, ?_⟩
  · rw [hflat]
    exact shuffle_perm seed ratings
  · intro i hi
    exact kFolds_test_len seed ratings k hk i hi
  · intro i j si sj hsi hsj
    have hlm : ((kFolds seed ratings k).map Prod.snd).length = k.toNat := by
      rw [List.length_map, hlen0]
    have hi2 : i < k.toNat := by
      by_contra hc
      have hge : ((kFolds seed ratings k).map Prod.snd).length ≤ i := by
        rw [hlm]; omega
      rw [List.getElem?_eq_none hge] at hsi
      simp at hsi
    have hj2 : j < k.toNat := by
      by_contra hc
      have hge : ((kFolds seed ratings k).map Prod.snd).length ≤ j := by
        rw [hlm]; omega
      rw [List.getElem?_eq_none hge] at hsj
      simp at hsj
    rw [kFolds_test_len seed ratings k hk i hi2] at hsi
    rw [kFolds_test_len seed ratings k hk j hj2] at hsj
    constructor
    · intro h1 h2
      rw [← Option.some.inj hsi, ← Option.some.inj hsj]
      rw [if_pos h1, if_neg (by omega)]
    · rw [← Option.some.inj hsi, ← Option.some.inj hsj]
      split <;> split <;> omega

/-- Witness for C1 at `sampleRatings`, seed 0, `k = 2`. -/
theorem kFolds_partition_witness :
    (kFolds 0 sampleRatings 2).length = (2 : Int).toNat ∧
    ((kFolds 0 sampleRatings 2).map Prod.snd).flatten = shuffle 0 sampleRatings ∧
    (((kFolds 0 sampleRatings 2).map Prod.snd).flatten).Perm sampleRatings ∧
    (∀ i, i < (2 : Int).toNat →
      (((kFolds 0 sampleRatings 2).map Prod.snd)[i]?).map List.length =
        some (sampleRatings.length / (2 : Int).toNat +
          if i < sampleRatings.length % (2 : Int).toNat then 1 else 0)) ∧
    (∀ i j si sj,
      (((kFolds 0 sampleRatings 2).map Prod.snd)[i]?).map List.length = some si →
      (((kFolds 0 sampleRatings 2).map Prod.snd)[j]?).map List.length = some sj →
      (i < sampleRatings.length % (2 : Int).toNat →
        sampleRatings.length % (2 : Int).toNat ≤ j → si = sj + 1) ∧
        si ≤ sj + 1) :=
  kFolds_partition sampleRatings 0 2 (by decide) (by decide)

/-- C2: every fold `(trainSet, testSet)` yielded by `kFolds` is a pair of
disjoint index ranges of the shuffled list — the test set is the contiguous
range `[start, stop)` and the train set is exactly the rest — and their
multiset union is the full input rating multiset. -/
theorem kFolds_fold_train_test (ratings : List RawRating) (seed : Nat)
    (k : Int) (tr te : List RawRating)
    (hmem : (tr, te) ∈ kFolds seed ratings k) :
    (∃ start stop, start ≤ stop ∧ stop ≤ (shuffle seed ratings).length ∧
      tr = (shuffle seed ratings).take start ++ (shuffle seed ratings).drop stop ∧
      te = ((shuffle seed ratings).drop start).take (stop - start)) ∧
    (tr ++ te).Perm ratings := by
  rcases le_or_lt k 0 with hk | hk
  · rw [kFolds_empty_of_nonpos seed ratings k hk] at hmem
    simp at hmem
  · obtain ⟨i, hik, hpair⟩ := kFolds_mem seed ratings k hk hmem
    have hk2 : 0 < k.toNat := by omega
    have htr : tr = (mkFold (shuffle seed ratings) k.toNat i).1 :=
      congrArg Prod.fst hpair
    have hte : te = (mkFold (shuffle seed ratings) k.toNat i).2 :=
      congrArg Prod.snd hpair
    constructor
    · refine ⟨foldStart (shuffle seed ratings).length k.toNat i,
        foldStart (shuffle seed ratings).length k.toNat (i + 1),
        foldStart_mono _ _ (Nat.le_succ i),
        foldStart_le _ _ hk2 hik, ?_, ?_⟩
      · rw [htr]; rfl
      · rw [hte]; rfl
    · rw [htr, hte]
      exact (mkFold_append_perm (shuffle seed ratings) k.toNat i).trans
        (shuffle_perm seed ratings)

/-- Witness for C2: the first fold yielded by `kFolds 0 sampleRatings 2`. -/
theorem kFolds_fold_train_test_witness :
    (∃ start stop, start ≤ stop ∧ stop ≤ (shuffle 0 sampleRatings).length ∧
      [(⟨2, 10, 3, 1⟩ : RawRating)] =
        (shuffle 0 sampleRatings).take start ++ (shuffle 0 sampleRatings).drop stop ∧
      [(⟨1, 10, 4, 0⟩ : RawRating), ⟨1, 11, 5, 2⟩] =
        ((shuffle 0 sampleRatings).drop start).take (stop - start)) ∧
    (([(⟨2, 10, 3, 1⟩ : RawRating)] ++
      [(⟨1, 10, 4, 0⟩ : RawRating), ⟨1, 11, 5, 2⟩]).Perm sampleRatings) :=
  kFolds_fold_train_test sampleRatings 0 2 [⟨2, 10, 3, 1⟩]
    [⟨1, 10, 4, 0⟩, ⟨1, 11, 5, 2⟩] (by decide)

/-- C3: a test rating whose raw user id or raw item id was not observed in
the fold's training data is skipped by the per-fold evaluation loop: no
Prediction Record is appended for it, nothing is raised past the query
(the loop is a total function), and evaluation continues with the
remaining test ratings. -/
theorem unknown_id_skipped (td : TrainingData) (est : Nat → Nat → ℚ)
    (x : RawRating) (rest : List RawRating)
    (h : td.rawToInnerIdUsers.lookup x.user = none ∨
      td.rawToInnerIdItems.lookup x.item = none) :
    testLoop td est (x :: rest) = testLoop td est rest := by
  rcases h with h | h
  · simp [testLoop, h]
  · cases hu : td.rawToInnerIdUsers.lookup x.user <;> simp [testLoop, h, hu]

/-- Witness for C3: user 2 was never seen in training, so its test rating
yields no Prediction Record. -/
theorem unknown_id_skipped_witness :
    testLoop (buildTrainingData [⟨1, 10, 4, 5⟩]) (fun _ _ => 0)
      ((⟨2, 10, 3, 0⟩ : RawRating) :: []) =
      testLoop (buildTrainingData [⟨1, 10, 4, 5⟩]) (fun _ _ => 0) [] :=
  unknown_id_skipped (buildTrainingData [⟨1, 10, 4, 5⟩]) (fun _ _ => 0)
    ⟨2, 10, 3, 0⟩ [] (Or.inl (by decide))

/-- C4 is refuted on the code: argument parsing validates only the
name-valued options; `-k` and `-cv` are bare `type=int` options with no
positivity check.  A configuration with negative `k` and zero `cv` is
accepted at startup and the run completes without any error, yielding zero
folds and reporting the mean over an empty list. -/
theorem config_nonpositive_accepted :
    parseArgs ⟨"KNNBaseline", "MSD", "als", "ml-100k", -5, 0⟩ =
      some ⟨"KNNBaseline", "MSD", "als", "ml-100k", -5, 0⟩ ∧
    runMain (fun _ _ _ => 3) 0 sampleRatings
      ⟨"KNNBaseline", "MSD", "als", "ml-100k", -5, 0⟩ = some ([], 0) := by
  have hp : parseArgs ⟨"KNNBaseline", "MSD", "als", "ml-100k", -5, 0⟩ =
      some ⟨"KNNBaseline", "MSD", "als", "ml-100k", -5, 0⟩ := by decide
  refine ⟨hp, ?_⟩
  have h1 : kFolds 0 sampleRatings (0 : Int) = [] :=
    kFolds_empty_of_nonpos 0 sampleRatings 0 (by decide)
  simp only [runMain]
  rw [hp, Option.map_some']
  simp [runCV, h1]

/-- C4 amended: an unknown algorithm, similarity-measure, baseline-method
or dataset name is rejected by argument parsing at startup, before any fold
partitioning, training or prediction; but a non-positive neighbor count `k`
or fold count `cv` is NOT detected — parsing places no constraint on those
two integers. -/
theorem parseArgs_names_only (a : ArgsIn) (k2 cv2 : Int) :
    (parseArgs a = some a ↔
      a.algo ∈ algoChoices ∧ a.sim ∈ simChoices ∧ a.method ∈ methodChoices ∧
        a.dataset ∈ datasetChoices) ∧
    (parseArgs a = none →
      ∀ (algoEst : TrainingData → Nat → Nat → ℚ) (seed : Nat)
        (ratings : List RawRating), runMain algoEst seed ratings a = none) ∧
    (parseArgs ⟨a.algo, a.sim, a.method, a.dataset, k2, cv2⟩).isSome =
      (parseArgs a).isSome := by
  refine ⟨?_, ?_, ?_⟩
  · by_cases hc : a.algo ∈ algoChoices ∧ a.sim ∈ simChoices ∧
        a.method ∈ methodChoices ∧ a.dataset ∈ datasetChoices
    · simp [parseArgs, hc]
    · simp [parseArgs, hc]
  · intro hn algoEst seed ratings
    simp [runMain, hn]
  · by_cases hc : a.algo ∈ algoChoices ∧ a.sim ∈ simChoices ∧
        a.method ∈ methodChoices ∧ a.dataset ∈ datasetChoices
    · simp [parseArgs, hc]
    · simp [parseArgs, hc]

/-- C5: in cross-validation mode the driver collects exactly one statistic
per fold yielded by `kFolds`, in order — the `computeStats` value of that
fold's accumulated Prediction Records — and the reported value is the
arithmetic mean (sum divided by count) of the collected per-fold values. -/
theorem runCV_mean (algoEst : TrainingData → Nat → Nat → ℚ) (seed : Nat)
    (ratings : List RawRating) (cv : Int) :
    (runCV algoEst seed ratings cv).1.length = (kFolds seed ratings cv).length ∧
    (∀ i : Nat, (runCV algoEst seed ratings cv).1[i]? =
      ((kFolds seed ratings cv)[i]?).map
        (fun f => computeStats ((getRmse algoEst f.1 f.2).1.preds))) ∧
    (runCV algoEst seed ratings cv).2 =
      (runCV algoEst seed ratings cv).1.sum /
        ((runCV algoEst seed ratings cv).1.length : ℚ) := by
  refine ⟨by simp [runCV], ?_, rfl⟩
  intro i
  show ((kFolds seed ratings cv).map
    (fun f : List RawRating × List RawRating =>
      (getRmse algoEst f.1 f.2).2))[i]? = _
  rw [List.getElem?_map]
  rfl

/-- C6: a fold's TrainingData is built solely from the fold's train set, so
replacing the test set by any list with the same (user, item, actual) query
triples (for instance with different timestamps) leaves the algorithm state
— Prediction Records included — and the fold statistic unchanged; and the
result of a fold depends only on that fold's own (train, test) pair, so
nothing built for one fold is reused by a later fold. -/
theorem fold_isolation (algoEst : TrainingData → Nat → Nat → ℚ)
    (tr te te2 : List RawRating)
    (h : te.map queryOf = te2.map queryOf) :
    getRmse algoEst tr te = getRmse algoEst tr te2 ∧
    (∀ (folds folds2 : List (List RawRating × List RawRating)) (i : Nat),
      folds[i]? = folds2[i]? →
      (folds.map (fun f => getRmse algoEst f.1 f.2))[i]? =
        (folds2.map (fun f => getRmse algoEst f.1 f.2))[i]?) := by
  constructor
  · have hT := testLoop_congr (buildTrainingData tr)
      (algoEst (buildTrainingData tr)) te te2 h
    simp only [getRmse, hT]
  · intro folds folds2 i hi
    rw [List.getElem?_map, List.getElem?_map, hi]

/-- Witness for C6: two test sets differing only in timestamps give the
same algorithm state and statistic. -/
theorem fold_isolation_witness :
    getRmse (fun _ _ _ => 0) [⟨1, 10, 4, 0⟩] [⟨1, 10, 4, 0⟩] =
      getRmse (fun _ _ _ => 0) [⟨1, 10, 4, 0⟩] [⟨1, 10, 4, 99⟩] ∧
    (∀ (folds folds2 : List (List RawRating × List RawRating)) (i : Nat),
      folds[i]? = folds2[i]? →
      (folds.map (fun f => getRmse (fun _ _ _ => 0) f.1 f.2))[i]? =
        (folds2.map (fun f => getRmse (fun _ _ _ => 0) f.1 f.2))[i]?) :=
  fold_isolation (fun _ _ _ => 0) [⟨1, 10, 4, 0⟩] [⟨1, 10, 4, 0⟩]
    [⟨1, 10, 4, 99⟩] (by decide)

/-- C7: the fold partition is a pure function of the input list, the seed
and `k` — two runs with the same inputs produce the identical shuffle and
folds — and the driver loop evaluates each fold once in order with no
retry: when every fold before `f` succeeds and `f` fails, the whole loop
fails with exactly `f`'s error. -/
theorem deterministic_no_retry
    (eval : List RawRating × List RawRating → Except String ℚ)
    (pre post : List (List RawRating × List RawRating))
    (f : List RawRating × List RawRating) (e : String)
    (hpre : ∀ x ∈ pre, ∃ v, eval x = Except.ok v)
    (hf : eval f = Except.error e) :
    runFoldsE eval (pre ++ f :: post) = Except.error e ∧
    (∀ (s1 s2 : Nat) (r1 r2 : List RawRating) (k1 k2 : Int),
      s1 = s2 → r1 = r2 → k1 = k2 →
      kFoldsFull s1 r1 k1 = kFoldsFull s2 r2 k2) := by
  refine ⟨runFoldsE_error eval f e hf pre post hpre, ?_⟩
  intro s1 s2 r1 r2 k1 k2 hs hr hk
  rw [hs, hr, hk]

/-- Witness for C7: a failing first fold aborts the loop with its error. -/
theorem deterministic_no_retry_witness :
    runFoldsE (fun _ => Except.error "fail")
      (([] : List (List RawRating × List RawRating)) ++ ([], []) :: []) =
      Except.error "fail" ∧
    (∀ (s1 s2 : Nat) (r1 r2 : List RawRating) (k1 k2 : Int),
      s1 = s2 → r1 = r2 → k1 = k2 →
      kFoldsFull s1 r1 k1 = kFoldsFull s2 r2 k2) :=
  deterministic_no_retry (fun _ => Except.error "fail") [] [] ([], []) "fail"
    (fun x hx => absurd hx (List.not_mem_nil x)) rfl

/-- C8: when the reporting layer runs — after the fold's testing phase,
before the fold statistic is produced — the algorithm state holds at least
the keys `trainingTime` and `testingTime` in `infos`, and `preds` is the
fold's accumulated list of Prediction Records, the very list the fold
statistic is then computed from. -/
theorem infos_preds_available (algoEst : TrainingData → Nat → Nat → ℚ)
    (tr te : List RawRating) :
    ((getRmse algoEst tr te).1.infos.lookup "trainingTime").isSome = true ∧
    ((getRmse algoEst tr te).1.infos.lookup "testingTime").isSome = true ∧
    (getRmse algoEst tr te).1.preds =
      testLoop (buildTrainingData tr) (algoEst (buildTrainingData tr)) te ∧
    (getRmse algoEst tr te).2 = computeStats ((getRmse algoEst tr te).1.preds) :=
  ⟨rfl, rfl, rfl, rfl⟩

/-- C9: `kFolds` mutates its argument in place: once the generator runs,
the caller's list is the shuffled permutation of the original (and the
shuffle genuinely reorders some inputs), and every yielded train/test pair
is made of slices of that shuffled list, not of the original ordering. -/
theorem kFolds_in_place_shuffle (seed : Nat) (seq : List RawRating) (k : Int) :
    (kFoldsFull seed seq k).1 = shuffle seed seq ∧
    ((kFoldsFull seed seq k).1).Perm seq ∧
    (∀ tr te, (tr, te) ∈ (kFoldsFull seed seq k).2 →
      ∃ start stop,
        tr = (kFoldsFull seed seq k).1.take start ++
          (kFoldsFull seed seq k).1.drop stop ∧
        te = ((kFoldsFull seed seq k).1.drop start).take (stop - start)) ∧
    (∃ (s2 : Nat) (l2 : List Nat), shuffle s2 l2 ≠ l2) := by
  refine ⟨rfl, shuffle_perm seed seq, ?_, ⟨0, [0, 1, 2], by decide⟩⟩
  intro tr te hmem
  have hmem2 : (tr, te) ∈ kFolds seed seq k := hmem
  rcases le_or_lt k 0 with hk | hk
  · rw [kFolds_empty_of_nonpos seed seq k hk] at hmem2
    simp at hmem2
  · obtain ⟨i, hik, hpair⟩ := kFolds_mem seed seq k hk hmem2
    have htr : tr = (mkFold (shuffle seed seq) k.toNat i).1 :=
      congrArg Prod.fst hpair
    have hte : te = (mkFold (shuffle seed seq) k.toNat i).2 :=
      congrArg Prod.snd hpair
    refine ⟨foldStart (shuffle seed seq).length k.toNat i,
      foldStart (shuffle seed seq).length k.toNat (i + 1), ?_, ?_⟩
    · rw [htr]
      rfl
    · rw [hte]
      rfl

/-- C10: for any rating list and any `k ≤ 0`, `kFolds` yields no folds at
all and (being a total function in this model) raises no error; the driver
therefore trains and tests nothing and aggregates statistics over zero
folds — its list of per-fold values is empty. -/
theorem kFolds_nonpositive (seed : Nat) (seq : List RawRating) (k : Int)
    (hk : k ≤ 0) :
    kFolds seed seq k = [] ∧
    (∀ algoEst : TrainingData → Nat → Nat → ℚ,
      (runCV algoEst seed seq k).1 = []) := by
  have h1 := kFolds_empty_of_nonpos seed seq k hk
  exact ⟨h1, fun algoEst => by simp [runCV, h1]⟩

/-- Witness for C10 at `k = -3`. -/
theorem kFolds_nonpositive_witness :
    kFolds 0 sampleRatings (-3) = [] ∧
    (∀ algoEst : TrainingData → Nat → Nat → ℚ,
      (runCV algoEst 0 sampleRatings (-3)).1 = []) :=
  kFolds_nonpositive 0 sampleRatings (-3) (by decide)
